import Mathlib

/-!
Shallow embedding of the point-in-time backtesting and nested-model-evaluation
engine of the repository (src/src/analysis/): the fair-value strategy simulator
(`backtest_fair_value.py`), the sized M6 strategy (`backtest_m6.py`), the
rolling/walk-forward CAPM estimator (`dynamic_capm.py`,
`estimate_nested_models.py`), the out-of-sample metric functions, and the
backward as-of join used by the temporal aligner (`pd.merge_asof` with
`direction='backward'`).

Numeric values are modelled as exact rationals (ℚ); pandas/numpy missing
values (NaN) are modelled as `Option.none` where a claim is about missingness,
and IEEE special values produced by division are modelled by the `FloatVal`
type where a claim is about infinity/NaN emission.
-/

namespace MQAC

/-- Position state of the fair-value strategy simulator
(`backtest_fair_value.py`, `FairValueBacktest.run`): `current_pos = 0` is
Cash/Flat, `current_pos = 1` is Long. -/
inductive Pos where
  | flat : Pos
  | long : Pos
deriving DecidableEq, Repr

/-- Numeric value of a position as stored in the `positions` array
(0.0 for Cash, 1.0 for Long). -/
def posVal : Pos → ℚ
  | Pos.flat => 0
  | Pos.long => 1

/-- One step of the state machine in `FairValueBacktest.run` (lines 88-98):
from Cash, enter Long iff `upside > entry_threshold`; from Long, exit to Cash
iff `upside < exit_threshold`; otherwise unchanged.  Both comparisons are
strict in the source. -/
def fvStep (entry exit_threshold : ℚ) (p : Pos) (upside : ℚ) : Pos :=
  match p with
  | Pos.flat => if entry < upside then Pos.long else Pos.flat
  | Pos.long => if upside < exit_threshold then Pos.flat else Pos.long

/-- The `positions` array produced by the loop in `FairValueBacktest.run`:
`current_pos` is updated from the signal, then recorded, for each date in
order.  The source starts with `current_pos = 0` (Flat); the initial state is
a parameter here so determinism in the initial state can be stated. -/
def fvPositions (entry exit_threshold : ℚ) (p : Pos) : List ℚ → List Pos
  | [] => []
  | s :: rest =>
      let p' := fvStep entry exit_threshold p s
      p' :: fvPositions entry exit_threshold p' rest

/-- `cdi_21d_proxy = (1 + cdi_daily)**HORIZON - 1` with `HORIZON = 21`
(`backtest_fair_value.py` line 78). -/
def cdi21proxy (cdi : ℚ) : ℚ := (1 + cdi) ^ 21 - 1

/-- `upside = (1 + pred) / (1 + cdi_21d_proxy) - 1`
(`backtest_fair_value.py` line 80). -/
def fvUpside (pred cdi : ℚ) : ℚ := (1 + pred) / (1 + cdi21proxy cdi) - 1

/-- `strategy_gross` of `FairValueBacktest.run` (lines 112-120):
`pos_lag = position.shift(1).fillna(0)` and
`gross = pos_lag * ret_petr4 + (1 - pos_lag) * cdi_daily`.
The leading `0` is the `fillna(0)` of the shifted position; `zipWith`
truncation mirrors the alignment of the shifted series with the returns. -/
def fvGross (positions ret cdi : List ℚ) : List ℚ :=
  List.zipWith (fun p rc => p * rc.1 + (1 - p) * rc.2)
    (0 :: positions) (List.zip ret cdi)

/-- One row of the input frame of `apply_strategy` in `backtest_m6.py`:
the M6 prediction columns and the market columns used by the strategy. -/
structure M6Row where
  prob_regime_0 : ℚ
  pred_prob : ℚ
  ret_lag1 : ℚ
  vol_20d : ℚ
  ret_petr4 : ℚ
  cdi_daily : ℚ
deriving DecidableEq, Repr

/-- `forecast_vol = df['vol_20d'].replace(0, 0.01)` (`backtest_m6.py` line 75):
only an exact zero is replaced by the 0.01 floor. -/
def volFloor (v : ℚ) : ℚ := if v = 0 then 1 / 100 else v

/-- `vol_exposure = (target_vol_daily / forecast_vol).clip(upper=1.0)`
(`backtest_m6.py` line 78).  The source sets
`target_vol_daily = 0.15 / np.sqrt(252)` (an irrational float constant), so
the target is a parameter here; no claim depends on its exact value. -/
def volExposure (targetVol v : ℚ) : ℚ :=
  min (targetVol / volFloor v) 1

/-- The sizing layer applied to a trailing-volatility series that may contain
missing values: pandas `NaN` (modelled as `none`) passes through
`replace(0, 0.01)`, the division and `clip` unchanged, so a missing trailing
volatility yields a missing (NaN) exposure. -/
def volExposureOpt (targetVol : ℚ) (v : Option ℚ) : Option ℚ :=
  v.map (volExposure targetVol)

/-- `base_signal = np.where(is_calm, signal_trend, signal_mean_rev)` with
`is_calm = prob_regime_0 > 0.5`, `signal_trend = (pred_prob > 0.5)`,
`signal_mean_rev = (ret_lag1 < -0.02)` (`backtest_m6.py` lines 83-97). -/
def m6Signal (r : M6Row) : ℚ :=
  if 1 / 2 < r.prob_regime_0 then (if 1 / 2 < r.pred_prob then 1 else 0)
  else (if r.ret_lag1 < -(1 / 50) then 1 else 0)

/-- `position = base_signal * vol_exposure` (`backtest_m6.py` line 107). -/
def m6Position (targetVol : ℚ) (r : M6Row) : ℚ :=
  m6Signal r * volExposure targetVol r.vol_20d

/-- `apply_strategy` of `backtest_m6.py` (lines 56-131) restricted to the
position and gross-return columns it produces: for each row,
`position = base_signal * vol_exposure` and
`strategy_gross = position * ret_petr4 + (1 - position) * cdi_daily`
(line 123) — the position of a date is applied to the return of the same
date, with no shift. -/
def applyStrategy (targetVol : ℚ) (rows : List M6Row) : List (ℚ × ℚ) :=
  rows.map (fun r =>
    let pos := m6Position targetVol r
    (pos, pos * r.ret_petr4 + (1 - pos) * r.cdi_daily))

/-- Arithmetic mean as computed by `np.mean` over a nonempty array; on the
empty list the rational division by zero yields 0 (the theorems only use
nonempty inputs). -/
def meanOf (l : List ℚ) : ℚ := l.sum / l.length

/-- Mean squared error `np.mean((y_true - y_pred)**2)` between two
equally-long series. -/
def mseOf (yTrue yPred : List ℚ) : ℚ :=
  meanOf (List.zipWith (fun a b => (a - b) ^ 2) yTrue yPred)

/-- An IEEE-754 double as produced by the numpy metric code: either a finite
value (exact rational here), a signed infinity, or NaN. -/
inductive FloatVal where
  | finite : ℚ → FloatVal
  | posInf : FloatVal
  | negInf : FloatVal
  | nan : FloatVal
deriving DecidableEq, Repr

/-- IEEE division of two finite doubles: division by zero yields a signed
infinity for a nonzero numerator and NaN for `0/0`; otherwise the finite
quotient (exact here). -/
def fdiv (a b : ℚ) : FloatVal :=
  if b = 0 then
    (if 0 < a then FloatVal.posInf else if a < 0 then FloatVal.negInf
     else FloatVal.nan)
  else FloatVal.finite (a / b)

/-- IEEE subtraction of a double from a finite double:
`c - (+inf) = -inf`, `c - (-inf) = +inf`, `c - NaN = NaN`. -/
def fsub (c : ℚ) : FloatVal → FloatVal
  | FloatVal.finite q => FloatVal.finite (c - q)
  | FloatVal.posInf => FloatVal.negInf
  | FloatVal.negInf => FloatVal.posInf
  | FloatVal.nan => FloatVal.nan

/-- The `R2_OOS` entry of `calculate_metrics` in `estimate_nested_models.py`
(lines 109-119): `mse = np.mean((y_true - y_pred)**2)`,
`mse_naive = np.mean((y_true - y_train_mean)**2)`,
`r2_oos = 1 - (mse / mse_naive)` — the division is not guarded against a
zero `mse_naive`, so the IEEE semantics of the division apply. -/
def r2oosNested (yTrue yPred : List ℚ) (yTrainMean : ℚ) : FloatVal :=
  fsub 1 (fdiv (mseOf yTrue yPred)
    (mseOf yTrue (List.replicate yTrue.length yTrainMean)))

/-- `calculate_r2_oos` of `dynamic_capm.py` (lines 20-31): computes the two
MSEs and returns `np.nan` when `mse_benchmark == 0`, otherwise
`1 - mse_model / mse_benchmark`. -/
def calculate_r2_oos (yTrue yPred yBenchmark : List ℚ) : FloatVal :=
  if mseOf yTrue yBenchmark = 0 then FloatVal.nan
  else FloatVal.finite (1 - mseOf yTrue yPred / mseOf yTrue yBenchmark)

/-- Ordinary least squares with intercept on a list of `(y, x)` rows — the
fit primitive invoked through `statsmodels` (`sm.OLS` / `RollingOLS` on
`sm.add_constant(x)`), in closed form for a single regressor:
`beta = (n·Σxy − Σx·Σy) / (n·Σx² − (Σx)²)`, `alpha = (Σy − beta·Σx) / n`.
Returns `(alpha, beta)`.  On a degenerate window (zero x-variance) the
rational division by zero yields 0 where statsmodels would yield NaN; the
theorems below never evaluate such a window. -/
def olsFit (rows : List (ℚ × ℚ)) : ℚ × ℚ :=
  let n : ℚ := rows.length
  let sx := (rows.map (fun r => r.2)).sum
  let sy := (rows.map (fun r => r.1)).sum
  let sxx := (rows.map (fun r => r.2 ^ 2)).sum
  let sxy := (rows.map (fun r => r.1 * r.2)).sum
  let beta := (n * sxy - sx * sy) / (n * sxx - sx ^ 2)
  (( sy - beta * sx) / n, beta)

/-- The parameter series of
`RollingOLS(y, sm.add_constant(x), window=W).fit().params`
(`dynamic_capm.py` lines 33-54, `estimate_nested_models.py` lines 188-190):
the entry at positional index `j` is the fit on the `W` rows at indices
`j−W+1 … j` (the window includes the current row), defined once `j+1 ≥ W`;
earlier entries are NaN (`none`).  `data` is the list of `(y, x)` rows in
date order. -/
def rollingParams (data : List (ℚ × ℚ)) (W j : ℕ) : Option (ℚ × ℚ) :=
  if W ≤ j + 1 ∧ j < data.length then
    some (olsFit ((data.drop (j + 1 - W)).take W))
  else none

/-- `lagged_params = rolling_params.shift(1)` (`dynamic_capm.py` lines 91-92,
`estimate_nested_models.py` line 194): the parameters indexed at `t` are the
rolling fit at `t − 1` (NaN at `t = 0`). -/
def laggedParams (data : List (ℚ × ℚ)) (W t : ℕ) : Option (ℚ × ℚ) :=
  match t with
  | 0 => none
  | Nat.succ j => rollingParams data W j

/-- The out-of-sample forecast
`pred_t = alpha_{t-1} + beta_{t-1} * excess_ret_ibov_t`
(`dynamic_capm.py` line 99, `estimate_nested_models.py` line 201): the lagged
parameters applied to the market return of date `t` itself. -/
def capmForecast (data : List (ℚ × ℚ)) (W t : ℕ) : Option ℚ :=
  match laggedParams data W t, data[t]? with
  | some p, some row => some (p.1 + p.2 * row.2)
  | _, _ => none

/-- Modelled from the spec's words for comparison (claim C2): a forecast
whose parameters come from a fit at logical time `i = t − 1` on exactly the
rows `[i−W, i)` — i.e. rows `t−1−W … t−2` — emitted one step later at
`t = i + 1`. -/
def specC2Forecast (data : List (ℚ × ℚ)) (W t : ℕ) : Option ℚ :=
  if W + 1 ≤ t ∧ t < data.length then
    match data.get? t with
    | some row =>
        let p := olsFit ((data.drop (t - 1 - W)).take W)
        some (p.1 + p.2 * row.2)
    | none => none
  else none

/-- The backward as-of lookup underlying
`pd.merge_asof(..., direction='backward')`
(`estimate_nested_models.py` lines 74-94, `rolling_r2.py` line 41): the last
secondary record whose available-date key is `≤ d`, or `none` when no such
record exists (pandas leaves the joined fields NaN). -/
def asofLookup {β : Type} (s : List (ℚ × β)) (d : ℚ) : Option β :=
  ((s.filter (fun r => r.1 ≤ d)).getLast?).map (fun r => r.2)

/-- The backward as-of join: one output row per primary row, carrying the
primary date, the primary payload, and the looked-up secondary payload
(`none` when no secondary record is yet available). -/
def asofJoin {α β : Type} (p : List (ℚ × α)) (s : List (ℚ × β)) :
    List (ℚ × α × Option β) :=
  p.map (fun pr => (pr.1, pr.2, asofLookup s pr.1))

/-- Re-application of the as-of join to its own output, treating each merged
row as both primary (its date and original payload) and already-joined
secondary (its date and joined fields): the freshly looked-up joined fields
replace the old ones (`getD none` flattens the lookup of an
already-optional payload). -/
def rejoinOutput {α β : Type} (J : List (ℚ × α × Option β)) :
    List (ℚ × α × Option β) :=
  (asofJoin (J.map (fun r => (r.1, r.2.1))) (J.map (fun r => (r.1, r.2.2)))).map
    (fun r => (r.1, r.2.1, r.2.2.getD none))

/-! ### Helper lemmas -/

lemma fvPositions_length (entry exit_threshold : ℚ) (p : Pos) (sig : List ℚ) :
    (fvPositions entry exit_threshold p sig).length = sig.length := by
  induction sig generalizing p with
  | nil => rfl
  | cons s rest ih => simp [fvPositions, ih]

lemma fvPositions_getElem? (entry exit_threshold : ℚ) (p : Pos) (sig : List ℚ)
    (i : ℕ) (hi : i < sig.length) :
    (fvPositions entry exit_threshold p sig)[i]? =
      some ((sig.take (i + 1)).foldl (fvStep entry exit_threshold) p) := by
  induction sig generalizing p i with
  | nil => exact absurd hi (Nat.not_lt_zero i)
  | cons s rest ih =>
      cases i with
      | zero => simp [fvPositions]
      | succ j =>
          have hj : j < rest.length := Nat.lt_of_succ_lt_succ hi
          simp only [fvPositions, List.getElem?_cons_succ, List.take_succ_cons,
            List.foldl_cons]
          exact ih _ j hj

lemma window_congr (d1 d2 : List (ℚ × ℚ)) (t W : ℕ)
    (h : d1.take t = d2.take t) (hW : W ≤ t) :
    (d1.drop (t - W)).take W = (d2.drop (t - W)).take W := by
  have e1 : (d1.drop (t - W)).take W = (d1.take t).drop (t - W) := by
    rw [List.drop_take]
    congr 1
    omega
  have e2 : (d2.drop (t - W)).take W = (d2.take t).drop (t - W) := by
    rw [List.drop_take]
    congr 1
    omega
  rw [e1, e2, h]

lemma laggedParams_congr (d1 d2 : List (ℚ × ℚ)) (W t : ℕ)
    (h : d1.take t = d2.take t) (h1 : t ≤ d1.length) (h2 : t ≤ d2.length) :
    laggedParams d1 W t = laggedParams d2 W t := by
  cases t with
  | zero => rfl
  | succ j =>
      rw [laggedParams, laggedParams, rollingParams, rollingParams]
      by_cases hcond : W ≤ j + 1
      · have hj1 : j < d1.length := by omega
        have hj2 : j < d2.length := by omega
        rw [if_pos ⟨hcond, hj1⟩, if_pos ⟨hcond, hj2⟩]
        exact congrArg (fun w => some (olsFit w)) (window_congr d1 d2 (j + 1) W h hcond)
      · rw [if_neg (fun hh => hcond hh.1), if_neg (fun hh => hcond hh.1)]

/-! ### The fair-value strategy simulator (claims C3, C10) -/

/-- C3: for every pair of thresholds with `entry_threshold > exit_threshold`,
the simulator's state machine moves Flat → Long exactly when the signal
exceeds `entry_threshold`, Long → Flat exactly when the signal is below
`exit_threshold`, leaves the state unchanged in every other case, and the
recorded position at index `i` is the deterministic fold of the step function
over the first `i + 1` signals from the initial state. -/
theorem C3_hysteresis_state_machine (entry exit_threshold : ℚ)
    (h : exit_threshold < entry) :
    (∀ s, fvStep entry exit_threshold Pos.flat s = Pos.long ↔ entry < s) ∧
    (∀ s, fvStep entry exit_threshold Pos.long s = Pos.flat ↔ s < exit_threshold) ∧
    (∀ p s, ¬(p = Pos.flat ∧ entry < s) → ¬(p = Pos.long ∧ s < exit_threshold) →
      fvStep entry exit_threshold p s = p) ∧
    (∀ (init : Pos) (sig : List ℚ) (i : ℕ), i < sig.length →
      (fvPositions entry exit_threshold init sig)[i]? =
        some ((sig.take (i + 1)).foldl (fvStep entry exit_threshold) init)) := by
  refine ⟨fun s => ?_, fun s => ?_, fun p s hf hl => ?_, fun init sig i hi => ?_⟩
  · constructor
    · intro hstep
      by_contra hle
      simp [fvStep, hle] at hstep
    · intro hlt
      simp [fvStep, hlt]
  · constructor
    · intro hstep
      by_contra hge
      simp [fvStep, hge] at hstep
    · intro hlt
      simp [fvStep, hlt]
  · cases p with
    | flat =>
        have : ¬ entry < s := fun hlt => hf ⟨rfl, hlt⟩
        simp [fvStep, this]
    | long =>
        have : ¬ s < exit_threshold := fun hlt => hl ⟨rfl, hlt⟩
        simp [fvStep, this]
  · exact fvPositions_getElem? entry exit_threshold init sig i hi

/-- Witness for C3 at `entry_threshold = 1`, `exit_threshold = 0` and the
signal sequence `[2, 1/2, -1]`. -/
theorem C3_hysteresis_state_machine_witness :
    fvStep 1 0 Pos.flat 2 = Pos.long ∧
    fvStep 1 0 Pos.long (-1) = Pos.flat ∧
    fvStep 1 0 Pos.long (1 / 2) = Pos.long ∧
    (fvPositions 1 0 Pos.flat [2, 1 / 2, -1])[2]? =
      some (([2, 1 / 2, -1].take 3).foldl (fvStep 1 0) Pos.flat) := by
  have hc := C3_hysteresis_state_machine 1 0 (by norm_num)
  refine ⟨(hc.1 2).mpr (by norm_num), (hc.2.1 (-1)).mpr (by norm_num), ?_, ?_⟩
  · refine hc.2.2.1 Pos.long (1 / 2) (fun hx => ?_) (fun hx => ?_)
    · exact absurd hx.1 (by simp)
    · norm_num at hx
  · exact hc.2.2.2 Pos.flat [2, 1 / 2, -1] 2 (by norm_num)

/-- C10: a signal exactly equal to a threshold never triggers a transition —
from Flat a signal equal to `entry_threshold` leaves the state Flat, and from
Long a signal equal to `exit_threshold` leaves the state Long (both source
comparisons are strict), for every pair of thresholds. -/
theorem C10_boundary_signal_no_transition (entry exit_threshold : ℚ) :
    fvStep entry exit_threshold Pos.flat entry = Pos.flat ∧
    fvStep entry exit_threshold Pos.long exit_threshold = Pos.long := by
  constructor <;> simp [fvStep]

/-! ### Execution lag (claim C4) -/

/-- C4 amended: in `FairValueBacktest.run` the position decided from the
signal of date `t` is realized at date `t+1` — the gross return at `t+1` is
`position[t] * ret[t+1] + (1 - position[t]) * cdi[t+1]`, and the first date
earns the risk-free return (the shifted position is filled with Flat) — while
in the sized variant (`apply_strategy` of `backtest_m6.py`) the gross return
at date `t` is `position[t] * ret[t] + (1 - position[t]) * cdi[t]`: the
volatility-scaled position of a date is applied to the return of the same
date, with no one-step shift. -/
theorem C4_execution_lag (P R C : List ℚ) (targetVol : ℚ) (rows : List M6Row)
    (t : ℕ) (htP : t < P.length) (htR : t + 1 < R.length) (htC : t + 1 < C.length)
    (h0R : 0 < R.length) (h0C : 0 < C.length) (htM : t < rows.length) :
    (fvGross P R C)[t + 1]? = some (P[t] * R[t + 1] + (1 - P[t]) * C[t + 1]) ∧
    (fvGross P R C)[0]? = some C[0] ∧
    (applyStrategy targetVol rows)[t]? =
      some (m6Position targetVol rows[t],
        m6Position targetVol rows[t] * rows[t].ret_petr4
          + (1 - m6Position targetVol rows[t]) * rows[t].cdi_daily) := by
  refine ⟨?_, ?_, ?_⟩
  · rw [fvGross, List.zip_eq_zipWith, List.getElem?_zipWith, List.getElem?_cons_succ,
      List.getElem?_zipWith, List.getElem?_eq_getElem htP,
      List.getElem?_eq_getElem htR, List.getElem?_eq_getElem htC]
  · rw [fvGross, List.zip_eq_zipWith, List.getElem?_zipWith, List.getElem?_cons_zero,
      List.getElem?_zipWith, List.getElem?_eq_getElem h0R, List.getElem?_eq_getElem h0C]
    norm_num
  · rw [applyStrategy, List.getElem?_map, List.getElem?_eq_getElem htM]
    rfl

/-- Witness for C4 at a concrete three-date fair-value run and a concrete
one-row sized run. -/
theorem C4_execution_lag_witness :
    (fvGross [1, 0] [10, 20, 30] [1, 2, 3])[0 + 1]? =
      some (([1, 0] : List ℚ)[0] * ([10, 20, 30] : List ℚ)[0 + 1]
        + (1 - ([1, 0] : List ℚ)[0]) * ([1, 2, 3] : List ℚ)[0 + 1]) ∧
    (fvGross [1, 0] [10, 20, 30] [1, 2, 3])[0]? = some (([1, 2, 3] : List ℚ)[0]) ∧
    (applyStrategy (1 / 100) [⟨1, 1, 0, 2, 5, 7⟩])[0]? =
      some (m6Position (1 / 100) (⟨1, 1, 0, 2, 5, 7⟩ : M6Row),
        m6Position (1 / 100) (⟨1, 1, 0, 2, 5, 7⟩ : M6Row) * 5
          + (1 - m6Position (1 / 100) (⟨1, 1, 0, 2, 5, 7⟩ : M6Row)) * 7) :=
  C4_execution_lag [1, 0] [10, 20, 30] [1, 2, 3] (1 / 100) [⟨1, 1, 0, 2, 5, 7⟩] 0
    (by norm_num) (by norm_num) (by norm_num) (by norm_num) (by norm_num) (by norm_num)

/-- Counterexample to C4 as stated: in the sized variant (`apply_strategy`),
with target volatility `1/100` and two rows — date 0: calm regime, bullish
prediction, trailing vol `1/100` (so position 1), returns 0; date 1: calm
regime, bearish prediction (so position 0), asset return `1/10`, risk-free 0
— the positions are `[1, 0]` and the gross returns are `[0, 0]`.  The claim
demands the realized gross return at date 1 be
`position[0] * asset_return[1] + (1 - position[0]) * risk_free[1] = 1/10`,
but the code produces `0` (the date-1 position applied to the date-1
return). -/
theorem C4_execution_lag_counterexample :
    (applyStrategy (1 / 100)
        [⟨1, 1, 0, 1 / 100, 0, 0⟩, ⟨1, 0, 0, 1 / 100, 1 / 10, 0⟩]).map Prod.fst
      = [1, 0] ∧
    (applyStrategy (1 / 100)
        [⟨1, 1, 0, 1 / 100, 0, 0⟩, ⟨1, 0, 0, 1 / 100, 1 / 10, 0⟩]).map Prod.snd
      = [0, 0] ∧
    (0 : ℚ) ≠ 1 * (1 / 10) + (1 - 1) * 0 := by
  refine ⟨?_, ?_, by norm_num⟩ <;>
    norm_num [applyStrategy, m6Position, m6Signal, volExposure, volFloor]

/-! ### Out-of-sample metrics (claims C7, C8) -/

/-- C7: whenever the benchmark MSE is nonzero, the `R2_OOS` that
`calculate_metrics` computes for the historical-mean benchmark itself — the
constant predictor equal to the training-sample mean, exactly as
`run_estimation` builds `pred_m0_hm = np.full_like(y_test, y_train_mean)` —
is exactly 0, because the model MSE and the benchmark MSE are the same
number. -/
theorem C7_benchmark_self_r2_zero (yTrain yTest : List ℚ)
    (h : mseOf yTest (List.replicate yTest.length (meanOf yTrain)) ≠ 0) :
    r2oosNested yTest (List.replicate yTest.length (meanOf yTrain)) (meanOf yTrain)
      = FloatVal.finite 0 := by
  rw [r2oosNested, fdiv, if_neg h, div_self h, fsub]
  norm_num

/-- Witness for C7 with training sample `[1, 2]` (mean `3/2`) and test sample
`[1, 2]` (benchmark MSE `1/4 ≠ 0`). -/
theorem C7_benchmark_self_r2_zero_witness :
    r2oosNested [1, 2] (List.replicate ([1, (2 : ℚ)].length) (meanOf [1, 2]))
      (meanOf [1, 2]) = FloatVal.finite 0 :=
  C7_benchmark_self_r2_zero [1, 2] [1, 2]
    (by norm_num [mseOf, meanOf, List.zipWith, List.replicate])

/-- C8 amended: at `calculate_r2_oos` (`dynamic_capm.py`) a zero benchmark
MSE yields the explicit `np.nan` marker, with no exception and no infinity;
but at `calculate_metrics` (`estimate_nested_models.py`) the division
`1 - mse / mse_naive` is unguarded, so a zero benchmark MSE with a nonzero
model MSE silently produces `-inf`, which flows into the results table. -/
theorem C8_zero_benchmark_mse_handling (yTrue yPred yBench : List ℚ) (m : ℚ)
    (hz : mseOf yTrue yBench = 0)
    (hz2 : mseOf yTrue (List.replicate yTrue.length m) = 0)
    (hpos : 0 < mseOf yTrue yPred) :
    calculate_r2_oos yTrue yPred yBench = FloatVal.nan ∧
    r2oosNested yTrue yPred m = FloatVal.negInf := by
  constructor
  · rw [calculate_r2_oos, if_pos hz]
  · rw [r2oosNested, fdiv, if_pos hz2, if_pos hpos, fsub]

/-- Witness for C8 with `y_true = [1, 1]`, benchmark predictions `[1, 1]`
(benchmark MSE 0) and model predictions `[0, 0]` (model MSE 1). -/
theorem C8_zero_benchmark_mse_handling_witness :
    calculate_r2_oos [1, 1] [0, 0] [1, 1] = FloatVal.nan ∧
    r2oosNested [1, 1] [0, 0] 1 = FloatVal.negInf :=
  C8_zero_benchmark_mse_handling [1, 1] [0, 0] [1, 1] 1
    (by norm_num [mseOf, meanOf, List.zipWith])
    (by norm_num [mseOf, meanOf, List.zipWith, List.replicate])
    (by norm_num [mseOf, meanOf, List.zipWith])

/-- Counterexample to C8 as stated: at the `calculate_metrics` site the
evaluator does not report an undefined marker when the benchmark MSE is zero
— for test target `[1, 1]`, training mean 1 (benchmark MSE 0) and model
predictions `[0, 0]`, the computed `R2_OOS` is `-inf`, not NaN. -/
theorem C8_zero_benchmark_mse_counterexample :
    r2oosNested [1, 1] [0, 0] 1 = FloatVal.negInf ∧
    FloatVal.negInf ≠ FloatVal.nan := by
  refine ⟨?_, by simp⟩
  norm_num [r2oosNested, mseOf, meanOf, fdiv, fsub, List.zipWith, List.replicate]

/-! ### Volatility-targeting sizing layer (claim C9) -/

/-- C9 amended: for every present (non-missing) trailing volatility the
sizing layer computes `min(target_daily_vol / floored_vol, 1)`, which never
exceeds 1, and an exact zero is replaced by the documented `0.01` floor
before the division; but a missing (NaN) trailing volatility is not floored
— it propagates to a missing (NaN) exposure. -/
theorem C9_vol_targeting_floor (targetVol v : ℚ) :
    volExposureOpt targetVol (some v) = some (min (targetVol / volFloor v) 1) ∧
    volExposure targetVol v ≤ 1 ∧
    (v = 0 → volExposure targetVol v = min (targetVol / (1 / 100)) 1) ∧
    volExposureOpt targetVol none = none := by
  refine ⟨rfl, min_le_right _ _, fun hv => ?_, rfl⟩
  rw [volExposure, volFloor, if_pos hv]

/-- Witness for C9 at `targetVol = 1/100` and a zero trailing volatility. -/
theorem C9_vol_targeting_floor_witness :
    volExposureOpt (1 / 100) (some 0) = some (min ((1 / 100) / volFloor 0) 1) ∧
    volExposure (1 / 100) 0 ≤ 1 ∧
    volExposure (1 / 100) 0 = min ((1 / 100) / (1 / 100)) 1 ∧
    volExposureOpt (1 / 100) none = none :=
  ⟨(C9_vol_targeting_floor (1 / 100) 0).1, (C9_vol_targeting_floor (1 / 100) 0).2.1,
   (C9_vol_targeting_floor (1 / 100) 0).2.2.1 rfl,
   (C9_vol_targeting_floor (1 / 100) 0).2.2.2⟩

/-- Counterexample to C9 as stated: a missing trailing volatility (pandas
NaN, modelled as `none`) is not replaced by the floor — `replace(0, 0.01)`
touches only exact zeros — so the computed exposure is the missing marker
NaN, not the finite floored value the claim requires. -/
theorem C9_missing_vol_counterexample :
    volExposureOpt (1 / 100) none = none ∧
    volExposureOpt (1 / 100) none ≠ some (min ((1 / 100) / (1 / 100)) 1) :=
  ⟨rfl, by simp [volExposureOpt]⟩

/-! ### The backward as-of join (claims C5, C6) -/

lemma rel_getLast_of_pairwise {γ : Type} {R : γ → γ → Prop} :
    ∀ {l : List γ}, l.Pairwise R → ∀ (hne : l ≠ []) (x : γ), x ∈ l →
      x = l.getLast hne ∨ R x (l.getLast hne) := by
  intro l
  induction l with
  | nil => intro _ hne; exact absurd rfl hne
  | cons a l' ih =>
      intro h hne x hx
      cases l' with
      | nil =>
          left
          simpa using hx
      | cons b t =>
          have hgl : (a :: b :: t).getLast hne = (b :: t).getLast (by simp) :=
            List.getLast_cons (by simp)
          rcases List.mem_cons.mp hx with hxa | hxl
          · right
            rw [hgl, hxa]
            exact (List.pairwise_cons.mp h).1 _ (List.getLast_mem (by simp))
          · rw [hgl]
            exact ih (List.pairwise_cons.mp h).2 (by simp) x hxl

lemma asofLookup_eq_none_iff {β : Type} (s : List (ℚ × β)) (d : ℚ) :
    asofLookup s d = none ↔ ∀ r ∈ s, ¬ r.1 ≤ d := by
  simp [asofLookup, List.getLast?_eq_none_iff, List.filter_eq_nil_iff]

lemma asofLookup_max {β : Type} (s : List (ℚ × β)) (d : ℚ)
    (hs : s.Pairwise (fun a b => a.1 ≤ b.1)) (r : ℚ × β) (hr : r ∈ s) (hle : r.1 ≤ d) :
    ∃ r', r' ∈ s ∧ asofLookup s d = some r'.2 ∧ r'.1 ≤ d ∧
      ∀ r'', r'' ∈ s → r''.1 ≤ d → r''.1 ≤ r'.1 := by
  have hrF : r ∈ s.filter (fun q => q.1 ≤ d) :=
    List.mem_filter.mpr ⟨hr, by simpa using hle⟩
  have hFne : s.filter (fun q => q.1 ≤ d) ≠ [] := by
    intro h0
    rw [h0] at hrF
    exact absurd hrF (List.not_mem_nil r)
  have hlastmem := List.getLast_mem hFne
  have hFp : (s.filter (fun q => q.1 ≤ d)).Pairwise (fun a b => a.1 ≤ b.1) :=
    List.Pairwise.sublist (List.filter_sublist s) hs
  refine ⟨(s.filter (fun q => q.1 ≤ d)).getLast hFne,
    (List.mem_filter.mp hlastmem).1, ?_, ?_, ?_⟩
  · rw [asofLookup, List.getLast?_eq_getLast _ hFne]
    rfl
  · have := (List.mem_filter.mp hlastmem).2
    simpa using this
  · intro r'' hr'' hle''
    have hr''F : r'' ∈ s.filter (fun q => q.1 ≤ d) :=
      List.mem_filter.mpr ⟨hr'', by simpa using hle''⟩
    rcases rel_getLast_of_pairwise hFp hFne r'' hr''F with he | hR
    · rw [he]
    · exact hR

/-- C5: the backward as-of join produces exactly one joined row per primary
date, carrying the primary fields unchanged; the attached secondary payload
is a most recent record whose available-date is `≤` the primary date
(it belongs to the secondary series, its available-date is `≤` the primary
date, and no available record has a later available-date); and for a primary
date preceding every secondary record the attached payload is the explicit
missing marker `none`, never a default value. -/
theorem C5_asof_join_semantics {α β : Type} (p : List (ℚ × α)) (s : List (ℚ × β))
    (hs : s.Pairwise (fun a b => a.1 ≤ b.1)) :
    ((asofJoin p s).length = p.length) ∧
    (∀ (i : ℕ) (hi : i < p.length),
      (asofJoin p s)[i]? = some (p[i].1, p[i].2, asofLookup s p[i].1) ∧
      ((∀ r ∈ s, ¬ r.1 ≤ p[i].1) → asofLookup s p[i].1 = none) ∧
      (∀ r ∈ s, r.1 ≤ p[i].1 →
        ∃ r', r' ∈ s ∧ asofLookup s p[i].1 = some r'.2 ∧ r'.1 ≤ p[i].1 ∧
          ∀ r'', r'' ∈ s → r''.1 ≤ p[i].1 → r''.1 ≤ r'.1)) := by
  refine ⟨by simp [asofJoin], fun i hi => ⟨?_, ?_, ?_⟩⟩
  · rw [asofJoin, List.getElem?_map, List.getElem?_eq_getElem hi]
    rfl
  · intro hnone
    exact (asofLookup_eq_none_iff s _).mpr hnone
  · intro r hr hle
    exact asofLookup_max s _ hs r hr hle

/-- Witness for C5 on a three-date primary series and a two-record secondary
series: the join has one row per primary date, the first primary date (before
any secondary record) gets the missing marker, and the last primary date gets
the most recent available record. -/
theorem C5_asof_join_semantics_witness :
    ((asofJoin ([(1, 10), (2, 20), (5, 50)] : List (ℚ × ℚ)) ([(2, 100), (4, 200)] : List (ℚ × ℚ))).length
      = ([(1, 10), (2, 20), (5, 50)] : List (ℚ × ℚ)).length) ∧
    (asofLookup ([(2, 100), (4, 200)] : List (ℚ × ℚ))
      ((([(1, 10), (2, 20), (5, 50)] : List (ℚ × ℚ)))[0].1) = none) ∧
    (∃ r', r' ∈ ([(2, 100), (4, 200)] : List (ℚ × ℚ)) ∧
      asofLookup ([(2, 100), (4, 200)] : List (ℚ × ℚ))
        ((([(1, 10), (2, 20), (5, 50)] : List (ℚ × ℚ)))[2].1) = some r'.2 ∧
      r'.1 ≤ (([(1, 10), (2, 20), (5, 50)] : List (ℚ × ℚ)))[2].1 ∧
      ∀ r'', r'' ∈ ([(2, 100), (4, 200)] : List (ℚ × ℚ)) →
        r''.1 ≤ (([(1, 10), (2, 20), (5, 50)] : List (ℚ × ℚ)))[2].1 → r''.1 ≤ r'.1) := by
  have hc := C5_asof_join_semantics ([(1, 10), (2, 20), (5, 50)] : List (ℚ × ℚ))
    ([(2, 100), (4, 200)] : List (ℚ × ℚ)) (by norm_num [List.pairwise_cons])
  refine ⟨hc.1, (hc.2 0 (by norm_num)).2.1 ?_,
    (hc.2 2 (by norm_num)).2.2 (2, 100) (by simp) (by norm_num)⟩
  intro r hr
  rcases List.mem_cons.mp hr with h1 | h1
  · rw [h1]
    norm_num
  · rcases List.mem_cons.mp h1 with h2 | h2
    · rw [h2]
      norm_num
    · exact absurd h2 (List.not_mem_nil r)

lemma asofLookup_self {γ : Type} (L : List (ℚ × γ))
    (hL : L.Pairwise (fun a b => a.1 < b.1)) :
    ∀ (i : ℕ) (hi : i < L.length), asofLookup L (L[i].1) = some (L[i].2) := by
  induction L with
  | nil => intro i hi; exact absurd hi (by simp)
  | cons a l' ih =>
      intro i hi
      cases i with
      | zero =>
          have hfl : l'.filter (fun q => q.1 ≤ a.1) = [] := by
            rw [List.filter_eq_nil_iff]
            intro q hq
            have hlt := (List.pairwise_cons.mp hL).1 q hq
            simpa using not_le_of_lt hlt
          have hstep : (a :: l').filter (fun q => q.1 ≤ a.1) = [a] := by
            rw [List.filter_cons, hfl]
            simp
          rw [List.getElem_cons_zero, asofLookup, hstep]
          rfl
      | succ j =>
          have hj : j < l'.length := by simpa using Nat.lt_of_succ_lt_succ hi
          have ha : a.1 ≤ l'[j].1 :=
            le_of_lt ((List.pairwise_cons.mp hL).1 _ (List.getElem_mem hj))
          have hstep : (a :: l').filter (fun q => q.1 ≤ l'[j].1)
              = a :: l'.filter (fun q => q.1 ≤ l'[j].1) := by
            rw [List.filter_cons]
            simp [ha]
          have hIH := ih (List.pairwise_cons.mp hL).2 j hj
          have hFne : l'.filter (fun q => q.1 ≤ l'[j].1) ≠ [] := by
            intro h0
            rw [asofLookup, h0] at hIH
            simp at hIH
          obtain ⟨c, F', hF⟩ : ∃ c F', l'.filter (fun q => q.1 ≤ l'[j].1) = c :: F' := by
            cases hE : l'.filter (fun q => q.1 ≤ l'[j].1) with
            | nil => exact absurd hE hFne
            | cons c F' => exact ⟨c, F', rfl⟩
          rw [List.getElem_cons_succ, asofLookup, hstep, hF, List.getLast?_cons_cons]
          rw [asofLookup, hF] at hIH
          exact hIH

/-- C6: the backward as-of join is idempotent — re-applying the join to its
own output, treating each merged row as both primary (its date and original
payload) and already-joined secondary (its date and joined fields), returns
exactly the single application's result, for every primary series with
strictly increasing dates and every secondary series. -/
theorem C6_asof_join_idempotent {α β : Type} (p : List (ℚ × α)) (s : List (ℚ × β))
    (hp : p.Pairwise (fun a b => a.1 < b.1)) :
    rejoinOutput (asofJoin p s) = asofJoin p s := by
  simp only [rejoinOutput, asofJoin, List.map_map]
  apply List.map_congr_left
  intro a ha
  simp only [Function.comp]
  obtain ⟨i, hi, hpe⟩ := List.getElem_of_mem ha
  have hpair : (List.map (fun pr : ℚ × α => (pr.1, asofLookup s pr.1)) p).Pairwise
      (fun x y : ℚ × Option β => x.1 < y.1) :=
    List.Pairwise.map _ (fun x y hxy => hxy) hp
  have hlen : i < (List.map (fun pr : ℚ × α => (pr.1, asofLookup s pr.1)) p).length := by
    simpa using hi
  have hself := asofLookup_self _ hpair i hlen
  rw [List.getElem_map] at hself
  rw [hpe] at hself
  have hkey : asofLookup
      (List.map ((fun r => (r.1, r.2.2)) ∘ fun pr : ℚ × α => (pr.1, pr.2, asofLookup s pr.1)) p)
      a.1 = some (asofLookup s a.1) := hself
  rw [hkey]
  rfl

/-- Witness for C6 on a concrete strictly-dated primary series and secondary
series. -/
theorem C6_asof_join_idempotent_witness :
    rejoinOutput (asofJoin ([(1, 10), (2, 20), (5, 50)] : List (ℚ × ℚ)) ([(2, 100), (4, 200)] : List (ℚ × ℚ)))
      = asofJoin ([(1, 10), (2, 20), (5, 50)] : List (ℚ × ℚ)) ([(2, 100), (4, 200)] : List (ℚ × ℚ)) :=
  C6_asof_join_idempotent ([(1, 10), (2, 20), (5, 50)] : List (ℚ × ℚ)) ([(2, 100), (4, 200)] : List (ℚ × ℚ))
    (by norm_num [List.pairwise_cons])

/-! ### Rolling/walk-forward estimation (claims C1, C2) -/

/-- C1 amended: the forecast for date `t` depends only on the rows dated
strictly before `t` together with the contemporaneous market regressor of
date `t` itself — two runs whose inputs agree on all rows with index `< t`
and on the market return at `t` produce the same forecast for `t`
(in particular the forecast is invariant under mutation of the asset's own
return at `t` and of every row dated after `t`); invariance under mutation
of the market return at `t` does not hold, because the prediction is
`alpha_{t-1} + beta_{t-1} * market_return_t`. -/
theorem C1_no_lookahead (d1 d2 : List (ℚ × ℚ)) (W t : ℕ)
    (hpast : d1.take t = d2.take t)
    (h1 : t < d1.length) (h2 : t < d2.length)
    (hx : d1[t].2 = d2[t].2) :
    capmForecast d1 W t = capmForecast d2 W t := by
  rw [capmForecast, capmForecast,
    laggedParams_congr d1 d2 W t hpast (le_of_lt h1) (le_of_lt h2),
    List.getElem?_eq_getElem h1, List.getElem?_eq_getElem h2]
  cases laggedParams d2 W t with
  | none => rfl
  | some p => simp [hx]

/-- Witness for C1: two four-row datasets agreeing on rows 0-2 and on the
market return of row 3, differing in the asset return of row 3, give the
same forecast for date 3 (window `W = 2`). -/
theorem C1_no_lookahead_witness :
    capmForecast [(5, 7), (1, 1), (3, 2), (9, 0)] 2 3
      = capmForecast [(5, 7), (1, 1), (3, 2), (8, 0)] 2 3 :=
  C1_no_lookahead [(5, 7), (1, 1), (3, 2), (9, 0)] [(5, 7), (1, 1), (3, 2), (8, 0)]
    2 3 rfl (by norm_num) (by norm_num) rfl

/-- Counterexample to C1 as stated: two datasets agreeing on all rows dated
before `t = 3` (and even on the asset's own return at 3) but differing in the
market return of date 3 — an Observation field dated `≥ t` — produce
different forecasts for date 3, because the prediction uses the realized
market return of its own date. -/
theorem C1_no_lookahead_counterexample :
    (([(5, 7), (1, 1), (3, 2), (9, 0)] : List (ℚ × ℚ)).take 3
      = ([(5, 7), (1, 1), (3, 2), (9, 1)] : List (ℚ × ℚ)).take 3) ∧
    capmForecast [(5, 7), (1, 1), (3, 2), (9, 0)] 2 3 = some (-1) ∧
    capmForecast [(5, 7), (1, 1), (3, 2), (9, 1)] 2 3 = some 1 ∧
    (some (-1) : Option ℚ) ≠ some 1 := by
  refine ⟨rfl, ?_, ?_, by norm_num⟩ <;>
    norm_num [capmForecast, laggedParams, rollingParams, olsFit]

/-- C2 amended: in the fixed-window estimator the parameter series is
shifted by one step, so the parameters indexed at logical time `t` were fit
on exactly the `W` rows `[t−W, t)` — the raw `RollingOLS` fit at index `i`
uses the rows `(i−W, i]` including row `i`, and is first usable at `i + 1` —
and those parameters depend only on the rows with index `< t`. -/
theorem C2_rolling_window_one_step_lag (d : List (ℚ × ℚ)) (W t : ℕ)
    (hW : 1 ≤ W) (hWt : W ≤ t) (ht : t ≤ d.length) :
    laggedParams d W t = some (olsFit ((d.drop (t - W)).take W)) ∧
    (∀ d' : List (ℚ × ℚ), d.take t = d'.take t → t ≤ d'.length →
      laggedParams d' W t = laggedParams d W t) := by
  constructor
  · cases t with
    | zero => exact absurd hWt (by omega)
    | succ j =>
        rw [laggedParams, rollingParams, if_pos ⟨hWt, by omega⟩]
  · intro d' hEq hLen
    exact laggedParams_congr d' d W t hEq.symm hLen ht

/-- Witness for C2 at `W = 2`, `t = 3`: the parameters used at index 3 are
the OLS fit on rows 1 and 2, and mutating row 3 leaves them unchanged. -/
theorem C2_rolling_window_one_step_lag_witness :
    laggedParams [(5, 7), (1, 1), (3, 2), (9, 0)] 2 3
      = some (olsFit ((([(5, 7), (1, 1), (3, 2), (9, 0)] :
          List (ℚ × ℚ)).drop (3 - 2)).take 2)) ∧
    laggedParams [(5, 7), (1, 1), (3, 2), (8, 4)] 2 3
      = laggedParams [(5, 7), (1, 1), (3, 2), (9, 0)] 2 3 :=
  ⟨(C2_rolling_window_one_step_lag [(5, 7), (1, 1), (3, 2), (9, 0)] 2 3
      (by norm_num) (by norm_num) (by norm_num)).1,
   (C2_rolling_window_one_step_lag [(5, 7), (1, 1), (3, 2), (9, 0)] 2 3
      (by norm_num) (by norm_num) (by norm_num)).2
     [(5, 7), (1, 1), (3, 2), (8, 4)] rfl (by norm_num)⟩

/-- Counterexample to C2 as stated: under the claim's indexing — fit at
logical time `i` on the rows `[i−W, i)`, first usable at `i + 1` — the
forecast for `t = 3` with `W = 2` would be built from rows 0 and 1
(`specC2Forecast`, value `1/3` on this dataset), but the code's forecast for
`t = 3` is built from rows 1 and 2 and equals `-1`: the claim's window is off
by one from the code's. -/
theorem C2_rolling_window_one_step_lag_counterexample :
    capmForecast [(5, 7), (1, 1), (3, 2), (9, 0)] 2 3 = some (-1) ∧
    specC2Forecast [(5, 7), (1, 1), (3, 2), (9, 0)] 2 3 = some (1 / 3) ∧
    (some (-1) : Option ℚ) ≠ some (1 / 3) := by
  refine ⟨?_, ?_, by norm_num⟩ <;>
    norm_num [capmForecast, specC2Forecast, laggedParams, rollingParams, olsFit]

end MQAC
